import Mathlib

/-!
Verification of the memory/retrieval subsystem of a CV-assistant bot.

The Python sources are shallowly embedded: Python strings become `List Char`
(`Str`), the vector-store and episodic backends are modelled by their
responses (lists of documents and cosine distances), floating-point scores
become rationals, and the stateful memory manager becomes explicit state
passing over `MemState`.  Every definition is translated from the source
file it names in its doc comment.
-/

namespace FirdavsBot

set_option maxRecDepth 200000

/-- Python strings are modelled as their sequences of characters. -/
abbrev Str := List Char

/-- The character data of a Lean string literal, used to write `Str` literals. -/
def S (s : String) : Str := s.data

/-- Python `str.strip()`: remove leading and trailing whitespace. -/
def pyStrip (s : Str) : Str :=
  ((s.dropWhile Char.isWhitespace).reverse.dropWhile Char.isWhitespace).reverse

/-- Python `l[-n:]`: the last `n` elements (the whole list when it is shorter). -/
def pyTail (n : Nat) (l : List α) : List α := l.drop (l.length - n)

/-- `Retrieved` (memory_manager.py lines 53-56): one vector-search hit.
The float `score` is modelled as a rational. -/
structure Retrieved where
  text : Str
  score : ℚ
deriving DecidableEq

/-- `MemoryManager._kb_search` (memory_manager.py lines 204-215).  The Chroma
backend's response to the query is the pair of parallel lists `docs` (the
returned documents) and `dists` (their cosine distances); `count` is
`self.kb_col.count()`.  The comprehension keeps a hit exactly when its score
`1 - dist` exceeds 0.3. -/
def kb_search (count : Nat) (docs : List Str) (dists : List ℚ) : List Retrieved :=
  if count = 0 then []
  else
    ((docs.zip dists).filter (fun p => decide ((1 : ℚ) - p.2 > 3/10))).map
      (fun p => { text := p.1, score := 1 - p.2 })

/-- `MemoryManager._cv_search` (memory_manager.py lines 217-231): identical to
`_kb_search` but over the CV collection and with threshold 0.2. -/
def cv_search (count : Nat) (docs : List Str) (dists : List ℚ) : List Retrieved :=
  if count = 0 then []
  else
    ((docs.zip dists).filter (fun p => decide ((1 : ℚ) - p.2 > 2/10))).map
      (fun p => { text := p.1, score := 1 - p.2 })

/-- One short-term dialogue entry `{"q": message, "a": response}`
(memory_manager.py line 125). -/
structure Turn where
  q : Str
  a : Str
deriving DecidableEq

/-- The rendered dialogue tail of `get_relevant_context` (memory_manager.py
lines 152-154): `for item in self.dialog.get(user_id, [])[-3:]`. -/
def dialogTail (hist : List Turn) : List Str :=
  (pyTail 3 hist).map
    (fun item => S "User: " ++ item.q ++ S "\nAssistant: " ++ item.a.take 200)

/-- Section header `"=== ДАННЫЕ ИЗ CV ФИРДАВСА ==="` (line 160). -/
def cvHeader : Str := S "=== ДАННЫЕ ИЗ CV ФИРДАВСА ==="

/-- Section header `"\n=== ДОПОЛНИТЕЛЬНЫЕ ДОКУМЕНТЫ ==="` (line 165). -/
def kbHeader : Str := S "\n=== ДОПОЛНИТЕЛЬНЫЕ ДОКУМЕНТЫ ==="

/-- Section header `"\n=== ИСТОРИЯ ДИАЛОГА (mem0) ==="` (line 170). -/
def epHeader : Str := S "\n=== ИСТОРИЯ ДИАЛОГА (mem0) ==="

/-- Section header `"\n=== НЕДАВНИЕ СООБЩЕНИЯ ==="` (line 175). -/
def tailHeader : Str := S "\n=== НЕДАВНИЕ СООБЩЕНИЯ ==="

/-- The sentinel `"Контекст не найден."` (line 178). -/
def noContext : Str := S "Контекст не найден."

/-- The `parts` entries appended for the CV section (lines 159-162):
header plus one bullet per CV hit, the hit's text stripped. -/
def cvSection (cv : List Retrieved) : List Str :=
  if cv.isEmpty then []
  else cvHeader :: cv.map (fun x => S "• " ++ pyStrip x.text)

/-- The `parts` entries appended for the KB section (lines 164-167): header
plus one bullet per hit of `kb[:5]`, each text stripped then cut to 300
characters. -/
def kbSection (kb : List Retrieved) : List Str :=
  if kb.isEmpty then []
  else kbHeader :: (kb.take 5).map (fun x => S "• " ++ (pyStrip x.text).take 300)

/-- The `parts` entries appended for the episodic section (lines 169-172). -/
def epSection (ep : List Str) : List Str :=
  if ep.isEmpty then []
  else epHeader :: ep.map (fun x => S "• " ++ pyStrip x)

/-- The `parts` entries appended for the recent-messages section (lines
174-176): header plus the rendered dialogue tail, extended as is. -/
def tailSection (tl : List Str) : List Str :=
  if tl.isEmpty then [] else tailHeader :: tl

/-- The full `parts` list of `get_relevant_context` (lines 156-176). -/
def contextParts (ep : List Str) (kb cv : List Retrieved) (hist : List Turn) :
    List Str :=
  cvSection cv ++ kbSection kb ++ epSection ep ++ tailSection (dialogTail hist)

/-- `MemoryManager.get_relevant_context` (memory_manager.py lines 145-183),
parameterised by the values its four sub-searches return: `ep` is
`_mem0_search(...)`, `kb` is `_kb_search(...)`, `cv` is `_cv_search(...)` and
`hist` is `self.dialog.get(user_id, [])`.  Line 178:
`context = "\n".join(parts) if parts else "Контекст не найден."`. -/
def get_relevant_context (ep : List Str) (kb cv : List Retrieved)
    (hist : List Turn) : Str :=
  if (contextParts ep kb cv hist).isEmpty then noContext
  else List.intercalate (S "\n") (contextParts ep kb cv hist)

/-- `CV_DATA["personal_info"]` (config.py lines 126-132). -/
structure PersonalInfo where
  name : Str
  title : Str
  experience_years : Str
  location : Str
  expertise : Str

/-- `CV_DATA["contacts"]` (config.py lines 133-137). -/
structure Contacts where
  email : Str
  telegram : Str
  availability : Str

/-- One entry of `CV_DATA["work_experience"]` (config.py lines 138-169). -/
structure WorkEntry where
  company : Str
  period : Str
  position : Str
  highlights : List Str

/-- `CV_DATA["skills"]` (config.py lines 170-174). -/
structure Skills where
  models : List Str
  frameworks : List Str
  infra : List Str

/-- `CV_DATA["education"]` (config.py lines 175-179). -/
structure Education where
  university : Str
  degree : Str
  period : Str

/-- The shape of the `CV_DATA` dictionary (config.py lines 125-180). -/
structure CVData where
  personal_info : PersonalInfo
  contacts : Contacts
  work_experience : List WorkEntry
  skills : Skills
  education : Education

/-- `CV_DATA` (config.py lines 125-180), the static profile record. -/
def CV_DATA : CVData where
  personal_info :=
    { name := S "Фирдавс Файзуллаев"
      title := S "AI/ML Engineer | Архитектор LLM-систем"
      experience_years := S "5+"
      location := S "Москва"
      expertise := S "Production LLM, RAG, мультиагентные системы" }
  contacts :=
    { email := S "firdavs.fayzullaev@gmail.com"
      telegram := S "@FirdavsAIDev"
      availability := S "Открыт для AI/ML проектов и технического лидерства" }
  work_experience :=
    [ { company := S "AI Dynamics"
        period := S "Февраль 2024 — Октябрь 2024"
        position := S "AI/ML Engineer"
        highlights :=
          [S "Advanced Multi-Modal RAG Platform",
           S "Autonomous Agent Network",
           S "Real-time Voice AI"] },
      { company := S "TechForward Solutions"
        period := S "Март 2022 — Январь 2024"
        position := S "ML Engineer"
        highlights :=
          [S "Enterprise Knowledge Management",
           S "Financial Document Intelligence",
           S "Conversational AI Platform"] },
      { company := S "Analytics Pro"
        period := S "Сентябрь 2020 — Февраль 2022"
        position := S "Data Scientist"
        highlights :=
          [S "Predictive Analytics",
           S "NLP Classification",
           S "Recommendation Engine"] } ]
  skills :=
    { models := [S "Llama", S "DeepSeek", S "Qwen", S "Claude", S "GPT"]
      frameworks := [S "LangChain", S "LangGraph", S "CrewAI", S "AutoGen", S "DSPy"]
      infra := [S "FastAPI", S "Docker", S "Kubernetes", S "vLLM", S "TGI",
                S "AWS", S "GCP"] }
  education :=
    { university := S "РУДН"
      degree := S "Прикладная информатика"
      period := S "2018–2022" }

/-- Decimal rendering of a natural number, for interpolated ids. -/
def natStr (n : Nat) : Str := (toString n).data

/-- The three documents and ids `_index_cv_thoroughly` appends for one
work-experience entry `w` at index `i` (memory_manager.py lines 260-273). -/
def cvWorkPairs (i : Nat) (w : WorkEntry) : List (Str × Str) :=
  (S "Фирдавс работал в " ++ w.company ++ S " на позиции " ++ w.position ++
     S " в период " ++ w.period ++ S ". Ключевые проекты: " ++
     List.intercalate (S ", ") w.highlights ++ S ".",
   S "cv_work_" ++ natStr i ++ S "_full") ::
  (w.company ++ S ": " ++ w.position ++ S " (" ++ w.period ++ S ")",
   S "cv_work_" ++ natStr i ++ S "_brief") ::
  w.highlights.enum.map (fun p =>
    (S "В " ++ w.company ++ S " Фирдавс работал над: " ++ p.2,
     S "cv_work_" ++ natStr i ++ S "_hl_" ++ natStr p.1))

/-- The fixed achievement fragments (memory_manager.py lines 304-313). -/
def cvAchievements : List Str :=
  [S "Фирдавс развернул 15+ production AI-ботов для бизнеса",
   S "Системы Фирдавса обрабатывают 500K+ запросов в день с latency < 2 секунд",
   S "Фирдавс снижает затраты на AI на 80% через локальный деплой моделей",
   S "У Фирдавса дома лаборатория с RTX 4090 и 128GB RAM для экспериментов",
   S "Фирдавс достиг качества MOS 4.2/5 в voice cloning технологиях",
   S "Фирдавс создал zero-shot voice cloning бота на Chatterbox",
   S "Фирдавс специалист по RAG системам с персистентной памятью Mem0/Zep",
   S "Фирдавс работает в Voximplant над AI-ассистентом для 15K+ бизнес-клиентов"]

/-- The `(document, id)` pairs `_index_cv_thoroughly` builds into its parallel
`docs`/`ids` lists, in their exact append order (memory_manager.py lines
239-317). -/
def cvIndexPairs : List (Str × Str) :=
  [(S "Фирдавс Файзуллаев - " ++ CV_DATA.personal_info.title ++ S ". Опыт: " ++
      CV_DATA.personal_info.experience_years ++ S " лет в AI/ML. " ++
      S "Локация: " ++ CV_DATA.personal_info.location ++ S ". Специализация: " ++
      CV_DATA.personal_info.expertise ++ S ".",
    S "cv_personal_1"),
   (S "Имя: Фирдавс Файзуллаев. Должность: AI/ML Engineer и архитектор LLM-систем. " ++
      S "Экспертиза в " ++ CV_DATA.personal_info.expertise ++ S ". Базируется в Москве.",
    S "cv_personal_2"),
   (S "Контакты Фирдавса: Email " ++ CV_DATA.contacts.email ++ S ", Telegram " ++
      CV_DATA.contacts.telegram ++ S ". " ++ CV_DATA.contacts.availability,
    S "cv_contacts_1"),
   (S "Для связи с Фирдавсом Файзуллаевым: почта " ++ CV_DATA.contacts.email ++
      S " или телеграм " ++ CV_DATA.contacts.telegram,
    S "cv_contacts_2")] ++
  (CV_DATA.work_experience.enum.map (fun p => cvWorkPairs p.1 p.2)).flatten ++
  [(S "Фирдавс работает с моделями: " ++
      List.intercalate (S ", ") CV_DATA.skills.models ++ S ". " ++
      S "Особенно силен в Llama, DeepSeek, Qwen для локального деплоя.",
    S "cv_skills_models"),
   (S "Фреймворки которыми владеет Фирдавс: " ++
      List.intercalate (S ", ") CV_DATA.skills.frameworks ++ S ". " ++
      S "Эксперт в LangChain и LangGraph для построения агентских систем.",
    S "cv_skills_frameworks"),
   (S "Инфраструктурный стек Фирдавса: " ++
      List.intercalate (S ", ") CV_DATA.skills.infra ++ S ". " ++
      S "Умеет разворачивать ML системы в Kubernetes, оптимизировать через vLLM.",
    S "cv_skills_infra"),
   (S "Полный список технологий Фирдавса: " ++
      List.intercalate (S ", ")
        (CV_DATA.skills.models ++ CV_DATA.skills.frameworks ++ CV_DATA.skills.infra),
    S "cv_skills_all"),
   (S "Образование Фирдавса: " ++ CV_DATA.education.university ++
      S ", специальность " ++ CV_DATA.education.degree ++ S ", " ++
      CV_DATA.education.period,
    S "cv_education")] ++
  cvAchievements.enum.map (fun p => (p.2, S "cv_achievement_" ++ natStr p.1))

/-- A Chroma collection, modelled as its stored `(document, id)` fragments in
insertion order. -/
abbrev Collection := List (Str × Str)

/-- `collection.count()`. -/
def Collection.count (c : Collection) : Nat := c.length

/-- `collection.add(documents=docs, ids=ids)`: upsert of fresh fragments,
modelled as appending the zipped pairs. -/
def Collection.addDocs (c : Collection) (docs ids : List Str) : Collection :=
  c ++ docs.zip ids

/-- `MemoryManager._index_cv_thoroughly` (memory_manager.py lines 233-329),
acting on the CV collection: skip when the collection already holds a
fragment, otherwise build `docs`/`ids` and add them when `docs` is
non-empty (the trailing smoke-test queries are reads and leave the
collection unchanged). -/
def _index_cv_thoroughly (cv_col : Collection) : Collection :=
  if cv_col.count > 0 then cv_col
  else
    let docs := cvIndexPairs.map Prod.fst
    let ids := cvIndexPairs.map Prod.snd
    if docs.isEmpty then cv_col else cv_col.addDocs docs ids

/-- The mutable state of `MemoryManager` that `add_conversation_memory`
touches: the per-user short-term buffer `self.dialog`, plus the episodic
store (present when `self.mem0` is not None, its contents the pairs passed
to `mem0.add`). -/
structure MemState where
  mem0Present : Bool
  mem0Log : List (Str × Str × Str)
  dialog : Str → List Turn

/-- A `MemoryManager`'s state right after `__init__`: empty short-term buffer
and empty episodic log. -/
def initialMemState (mem0Present : Bool) : MemState :=
  { mem0Present := mem0Present, mem0Log := [], dialog := fun _ => [] }

/-- The short-term update of `add_conversation_memory` (memory_manager.py
lines 124-127): append the turn, then keep only the last 15 entries when the
buffer exceeds 15. -/
def pushTurn (hist : List Turn) (message response : Str) : List Turn :=
  let h := hist ++ [{ q := message, a := response }]
  if h.length > 15 then pyTail 15 h else h

/-- `MemoryManager.add_conversation_memory` (memory_manager.py lines
121-143): short-term append with FIFO cap, plus a best-effort episodic add
when mem0 is present. -/
def add_conversation_memory (st : MemState) (user_id message response : Str) :
    MemState :=
  { st with
    dialog := Function.update st.dialog user_id
      (pushTurn (st.dialog user_id) message response)
    mem0Log :=
      if st.mem0Present then st.mem0Log ++ [(user_id, message, response)]
      else st.mem0Log }

/-- A sequence of `add_conversation_memory` calls, each op being
`(user_id, message, response)`. -/
def runAdds (st : MemState) (ops : List (Str × Str × Str)) : MemState :=
  ops.foldl (fun s op => add_conversation_memory s op.1 op.2.1 op.2.2) st

/-- The fallback returned when the backend produced empty text
(ai_agent.py line 54). -/
def fallbackEmptyText : Str :=
  S "Хм, что-то пошло не так. Давай я лучше расскажу про опыт Фирдавса в AI?"

/-- The fallback returned when the backend raised (ai_agent.py line 57). -/
def fallbackErrorText : Str :=
  S "Упс, технические неполадки 🤔 Попробуй спросить еще раз?"

/-- `FirdavsAIAgent.generate_response` (ai_agent.py lines 16-60), from the
generation call on: `backend` is the outcome of `self.model.generate_content`
— `.error ()` when it raised, `.ok resp.text` otherwise (with `none` for a
null text).  The reply text is computed per lines 50-57, then the exchange is
recorded via `add_conversation_memory` (line 59) and the text returned. -/
def generate_response (st : MemState) (backend : Except Unit (Option Str))
    (user_message user_id : Str) : Str × MemState :=
  let text : Str :=
    match backend with
    | .error _ => fallbackErrorText
    | .ok t =>
      let t' := pyStrip (t.getD [])
      if t'.isEmpty then fallbackEmptyText else t'
  (text, add_conversation_memory st user_id user_message text)

/-- Python `" ".join(raw.split())` (memory_manager.py line 384): collapse
whitespace runs, dropping leading and trailing whitespace. -/
def normalizeWs (raw : Str) : Str :=
  List.intercalate (S " ")
    ((raw.splitOnP (fun c => c.isWhitespace)).filter (fun w => !w.isEmpty))

/-- The `while start < len(text)` loop of `_chunk_texts` (memory_manager.py
lines 388-396) on one normalized text, keeping the windows longer than 50
characters.  `fuel` bounds the number of iterations; the loop advances
`start` by `step = max(100, chunk_chars - overlap)` each pass, so
`text.length + 1` passes always suffice. -/
def chunkGo (text : Str) (chunk_chars overlap : Nat) : Nat → Nat → List Str
  | _, 0 => []
  | start, fuel + 1 =>
    if start < text.length then
      if ((text.drop start).take chunk_chars).length > 50 then
        (text.drop start).take chunk_chars ::
          chunkGo text chunk_chars overlap
            (start + max 100 (chunk_chars - overlap)) fuel
      else
        chunkGo text chunk_chars overlap
          (start + max 100 (chunk_chars - overlap)) fuel
    else []

/-- The chunks `_chunk_texts` produces for one normalized text. -/
def chunkWindows (text : Str) (chunk_chars overlap : Nat) : List Str :=
  chunkGo text chunk_chars overlap 0 (text.length + 1)

/-- `MemoryManager._chunk_texts` (memory_manager.py lines 379-398): normalize
each raw text, window it, and number the kept chunks `{pre}_{idx}` with `idx`
starting at 1 and running on across texts.  Returns `(docs, ids)`. -/
def _chunk_texts (texts : List Str) (pre : Str) (chunk_chars overlap : Nat) :
    List Str × List Str :=
  let r := texts.foldl
    (fun (acc : List Str × List Str × Nat) raw =>
      let text := normalizeWs raw
      if text.isEmpty then acc
      else
        let ws := chunkWindows text chunk_chars overlap
        (acc.1 ++ ws,
         acc.2.1 ++ (List.range ws.length).map
           (fun j => pre ++ S "_" ++ natStr (acc.2.2 + j)),
         acc.2.2 + ws.length))
    ([], [], 1)
  (r.1, r.2.1)

/-- A full preference record `{lang, voice, style}` (utils/user_prefs.py). -/
structure Prefs where
  lang : Str
  voice : Str
  style : Str
deriving DecidableEq

/-- A partial preference record: what one stored JSON entry, or one `set`
call's keyword arguments, may hold per field (`none` = absent / None). -/
structure PrefsUpdate where
  lang : Option Str
  voice : Option Str
  style : Option Str

/-- `_DEFAULT` (utils/user_prefs.py line 10). -/
def DEFAULT : Prefs :=
  { lang := S "ru-RU", voice := S "ru-RU-Wavenet-D", style := S "neutral" }

/-- An absent / empty stored entry `{}`. -/
def emptyUpdate : PrefsUpdate := { lang := none, voice := none, style := none }

/-- Python `{**_DEFAULT, **partial}`: fill each absent field with its default. -/
def mergeDefaults (p : PrefsUpdate) : Prefs :=
  { lang := p.lang.getD DEFAULT.lang
    voice := p.voice.getD DEFAULT.voice
    style := p.style.getD DEFAULT.style }

/-- `cur.update({k: v for k, v in kwargs.items() if v is not None})`
(utils/user_prefs.py line 30). -/
def applyUpdate (cur : Prefs) (kw : PrefsUpdate) : Prefs :=
  { lang := kw.lang.getD cur.lang
    voice := kw.voice.getD cur.voice
    style := kw.style.getD cur.style }

/-- A stored entry after a `set`: all three fields written out. -/
def toStored (p : Prefs) : PrefsUpdate :=
  { lang := some p.lang, voice := some p.voice, style := some p.style }

/-- The JSON store, keyed by user id (Python keys it by `str(user_id)`, an
injective image of the id). -/
abbrev PrefsDb := Nat → PrefsUpdate

/-- The store as a fresh `"{}"` file: every user absent. -/
def initialPrefsDb : PrefsDb := fun _ => emptyUpdate

/-- `user_prefs.get` (utils/user_prefs.py lines 21-24):
`{**_DEFAULT, **db.get(str(user_id), {})}`. -/
def prefs_get (db : PrefsDb) (user_id : Nat) : Prefs := mergeDefaults (db user_id)

/-- `user_prefs.set` (utils/user_prefs.py lines 26-33): merge defaults with
the stored entry, overwrite with the non-None keyword arguments, store the
result and return it. -/
def prefs_set (db : PrefsDb) (user_id : Nat) (kw : PrefsUpdate) :
    Prefs × PrefsDb :=
  let cur := applyUpdate (prefs_get db user_id) kw
  (cur, Function.update db user_id (toStored cur))

/-- A sequence of `set` calls, each op being `(user_id, kwargs)`. -/
def runSets (db : PrefsDb) (ops : List (Nat × PrefsUpdate)) : PrefsDb :=
  ops.foldl (fun d op => (prefs_set d op.1 op.2).2) db

/-- The first character of a `Str`, with a space for the empty string; used to
tell the fixed section headers, bullets and dialogue lines apart. -/
def headCh (l : Str) : Char := l.headD ' '

/-! ### Helper lemmas -/

theorem intercalate_single (sep a : Str) : List.intercalate sep [a] = a := by
  simp [List.intercalate]

theorem intercalate_cons_cons (sep a b : Str) (t : List Str) :
    List.intercalate sep (a :: b :: t) = a ++ sep ++ List.intercalate sep (b :: t) := by
  simp [List.intercalate, List.intersperse, List.append_assoc]

theorem intercalate_head (sep a : Str) (t : List Str) :
    ∃ r, List.intercalate sep (a :: t) = a ++ r := by
  cases t with
  | nil => exact ⟨[], by simp [intercalate_single]⟩
  | cons b t =>
    exact ⟨sep ++ List.intercalate sep (b :: t),
      by rw [intercalate_cons_cons]; simp [List.append_assoc]⟩

theorem intercalate_append_split (sep : Str) (xs ys : List Str)
    (hx : xs ≠ []) (hy : ys ≠ []) :
    List.intercalate sep (xs ++ ys) =
      List.intercalate sep xs ++ sep ++ List.intercalate sep ys := by
  induction xs with
  | nil => exact absurd rfl hx
  | cons a xs ih =>
    cases xs with
    | nil =>
      cases ys with
      | nil => exact absurd rfl hy
      | cons b t => simp [intercalate_single, intercalate_cons_cons]
    | cons a2 xs2 =>
      have h2 := ih (by simp)
      have h3 : (a :: a2 :: xs2) ++ ys = a :: ((a2 :: xs2) ++ ys) := rfl
      rw [h3, List.cons_append, intercalate_cons_cons, ← List.cons_append, h2,
        intercalate_cons_cons]
      simp [List.append_assoc]

theorem intercalate_mem_split (sep x : Str) (parts : List Str) (hx : x ∈ parts) :
    ∃ s t, List.intercalate sep parts = s ++ x ++ t := by
  induction parts with
  | nil => cases hx
  | cons a t ih =>
    rcases List.mem_cons.mp hx with rfl | hmem
    · obtain ⟨r, hr⟩ := intercalate_head sep x t
      exact ⟨[], r, by simp [hr]⟩
    · cases t with
      | nil => cases hmem
      | cons b t2 =>
        obtain ⟨s, u, h⟩ := ih hmem
        exact ⟨a ++ sep ++ s, u,
          by rw [intercalate_cons_cons, h]; simp [List.append_assoc]⟩

theorem ne_of_headCh {x y : Str} (h : headCh x ≠ headCh y) : x ≠ y :=
  fun e => h (e ▸ rfl)

theorem cvSection_eq_nil_iff (cv : List Retrieved) : cvSection cv = [] ↔ cv = [] := by
  cases cv <;> simp [cvSection]

theorem kbSection_eq_nil_iff (kb : List Retrieved) : kbSection kb = [] ↔ kb = [] := by
  cases kb <;> simp [kbSection]

theorem epSection_eq_nil_iff (ep : List Str) : epSection ep = [] ↔ ep = [] := by
  cases ep <;> simp [epSection]

theorem tailSection_eq_nil_iff (tl : List Str) : tailSection tl = [] ↔ tl = [] := by
  cases tl <;> simp [tailSection]

theorem cvSection_of_ne {cv : List Retrieved} (h : cv ≠ []) :
    cvSection cv = cvHeader :: cv.map (fun x => S "• " ++ pyStrip x.text) := by
  cases cv with
  | nil => exact absurd rfl h
  | cons a t => rfl

theorem kbSection_of_ne {kb : List Retrieved} (h : kb ≠ []) :
    kbSection kb =
      kbHeader :: (kb.take 5).map (fun x => S "• " ++ (pyStrip x.text).take 300) := by
  cases kb with
  | nil => exact absurd rfl h
  | cons a t => rfl

theorem epSection_of_ne {ep : List Str} (h : ep ≠ []) :
    epSection ep = epHeader :: ep.map (fun x => S "• " ++ pyStrip x) := by
  cases ep with
  | nil => exact absurd rfl h
  | cons a t => rfl

theorem tailSection_of_ne {tl : List Str} (h : tl ≠ []) :
    tailSection tl = tailHeader :: tl := by
  cases tl with
  | nil => exact absurd rfl h
  | cons a t => rfl

theorem mem_cvSection {x : Str} {cv : List Retrieved} (h : x ∈ cvSection cv) :
    x = cvHeader ∨ ∃ y, x = S "• " ++ y := by
  cases cv with
  | nil => simp [cvSection] at h
  | cons a t =>
    rcases List.mem_cons.mp h with rfl | hm
    · exact Or.inl rfl
    · obtain ⟨r, _, hr⟩ := List.mem_map.mp hm
      exact Or.inr ⟨pyStrip r.text, hr.symm⟩

theorem mem_kbSection {x : Str} {kb : List Retrieved} (h : x ∈ kbSection kb) :
    x = kbHeader ∨ ∃ y, x = S "• " ++ y := by
  cases kb with
  | nil => simp [kbSection] at h
  | cons a t =>
    rcases List.mem_cons.mp h with rfl | hm
    · exact Or.inl rfl
    · obtain ⟨r, _, hr⟩ := List.mem_map.mp hm
      exact Or.inr ⟨(pyStrip r.text).take 300, hr.symm⟩

theorem mem_epSection {x : Str} {ep : List Str} (h : x ∈ epSection ep) :
    x = epHeader ∨ ∃ y, x = S "• " ++ y := by
  cases ep with
  | nil => simp [epSection] at h
  | cons a t =>
    rcases List.mem_cons.mp h with rfl | hm
    · exact Or.inl rfl
    · obtain ⟨r, _, hr⟩ := List.mem_map.mp hm
      exact Or.inr ⟨pyStrip r, hr.symm⟩

theorem headCh_bullet (y : Str) : headCh (S "• " ++ y) = '•' := rfl

theorem headCh_user (y : Str) : headCh (S "User: " ++ y) = 'U' := rfl

theorem ne_bullet_of_headCh {x : Str} (h : headCh x ≠ '•') (y : Str) :
    x ≠ S "• " ++ y :=
  ne_of_headCh (by rw [headCh_bullet]; exact h)

theorem ne_user_of_headCh {x : Str} (h : headCh x ≠ 'U') (y : Str) :
    x ≠ S "User: " ++ y :=
  ne_of_headCh (by rw [headCh_user]; exact h)

theorem mem_tailSection_dialog {x : Str} {hist : List Turn}
    (h : x ∈ tailSection (dialogTail hist)) :
    x = tailHeader ∨ ∃ y, x = S "User: " ++ y := by
  cases htl : dialogTail hist with
  | nil => rw [htl] at h; simp [tailSection] at h
  | cons a t =>
    rw [htl] at h
    rcases List.mem_cons.mp h with rfl | hm
    · exact Or.inl rfl
    · have hx : x ∈ dialogTail hist := by rw [htl]; exact hm
      obtain ⟨item, _, hr⟩ := List.mem_map.mp hx
      exact Or.inr ⟨item.q ++ (S "\nAssistant: " ++ item.a.take 200),
        by rw [← hr]; simp [List.append_assoc]⟩

theorem contextParts_eq_nil_iff (ep : List Str) (kb cv : List Retrieved)
    (hist : List Turn) :
    contextParts ep kb cv hist = [] ↔
      ep = [] ∧ kb = [] ∧ cv = [] ∧ dialogTail hist = [] := by
  simp only [contextParts, List.append_eq_nil, cvSection_eq_nil_iff,
    kbSection_eq_nil_iff, epSection_eq_nil_iff, tailSection_eq_nil_iff]
  tauto

theorem get_relevant_context_of_ne (ep : List Str) (kb cv : List Retrieved)
    (hist : List Turn) (h : contextParts ep kb cv hist ≠ []) :
    get_relevant_context ep kb cv hist =
      List.intercalate (S "\n") (contextParts ep kb cv hist) := by
  rw [get_relevant_context, if_neg]
  simpa using h

theorem contextParts_head (ep : List Str) (kb cv : List Retrieved)
    (hist : List Turn) (h : contextParts ep kb cv hist ≠ []) :
    ∃ hd t, contextParts ep kb cv hist = hd :: t ∧
      (hd = cvHeader ∨ hd = kbHeader ∨ hd = epHeader ∨ hd = tailHeader) := by
  by_cases hcv : cv = []
  · by_cases hkb : kb = []
    · by_cases hep : ep = []
      · cases htl : dialogTail hist with
        | nil =>
          exact absurd ((contextParts_eq_nil_iff ep kb cv hist).mpr
            ⟨hep, hkb, hcv, htl⟩) h
        | cons a t =>
          rw [contextParts, hcv, hkb, hep, htl]
          rw [show cvSection [] = [] from rfl, show kbSection [] = [] from rfl,
            show epSection [] = [] from rfl,
            tailSection_of_ne (List.cons_ne_nil a t)]
          exact ⟨tailHeader, a :: t, rfl, Or.inr (Or.inr (Or.inr rfl))⟩
      · rw [contextParts, hcv, hkb]
        rw [show cvSection [] = [] from rfl, show kbSection [] = [] from rfl,
          epSection_of_ne hep]
        exact ⟨epHeader, _, rfl, Or.inr (Or.inr (Or.inl rfl))⟩
    · rw [contextParts, hcv]
      rw [show cvSection [] = [] from rfl, kbSection_of_ne hkb]
      exact ⟨kbHeader, _, rfl, Or.inr (Or.inl rfl)⟩
  · rw [contextParts, cvSection_of_ne hcv]
    exact ⟨cvHeader, _, rfl, Or.inl rfl⟩

/-! ### C1 -/

/-- C1: `get_relevant_context` never returns the empty string, and it returns
exactly the sentinel `"Контекст не найден."` precisely when all four sources
(CV search, KB search, episodic search, dialogue tail) came back empty. -/
theorem C1_no_context_sentinel (ep : List Str) (kb cv : List Retrieved)
    (hist : List Turn) :
    get_relevant_context ep kb cv hist ≠ [] ∧
      (get_relevant_context ep kb cv hist = noContext ↔
        ep = [] ∧ kb = [] ∧ cv = [] ∧ dialogTail hist = []) := by
  by_cases hp : contextParts ep kb cv hist = []
  · have hctx : get_relevant_context ep kb cv hist = noContext := by
      simp [get_relevant_context, hp]
    refine ⟨by rw [hctx]; decide, ?_⟩
    rw [hctx]
    exact ⟨fun _ => (contextParts_eq_nil_iff ep kb cv hist).mp hp, fun _ => rfl⟩
  · obtain ⟨hd, t, hparts, hh⟩ := contextParts_head ep kb cv hist hp
    obtain ⟨r, hr⟩ := intercalate_head (S "\n") hd t
    have hctx : get_relevant_context ep kb cv hist = hd ++ r := by
      rw [get_relevant_context_of_ne ep kb cv hist hp, hparts]
      exact hr
    have hhead : headCh (hd ++ r) = '=' ∨ headCh (hd ++ r) = '\n' := by
      rcases hh with rfl | rfl | rfl | rfl
      · exact Or.inl rfl
      · exact Or.inr rfl
      · exact Or.inr rfl
      · exact Or.inr rfl
    have hns : get_relevant_context ep kb cv hist ≠ noContext := by
      rw [hctx]
      apply ne_of_headCh
      rcases hhead with he | he <;> rw [he] <;> decide
    have hne : get_relevant_context ep kb cv hist ≠ [] := by
      rw [hctx]
      intro hnil
      have : headCh (hd ++ r) = ' ' := by rw [hnil]; rfl
      rcases hhead with he | he <;> rw [he] at this <;> exact absurd this (by decide)
    refine ⟨hne, ?_, fun hall => ?_⟩
    · intro hs
      exact absurd hs hns
    · exact absurd ((contextParts_eq_nil_iff ep kb cv hist).mpr hall) hp

/-! ### C2 -/

/-- C2: with all four sources non-empty, the assembled context contains the CV
header, then the KB header, then the episodic header, then the
recent-messages header, in that order; and a section whose result list is
empty contributes no part at all — in particular its header line is absent
from the rendered parts. -/
theorem C2_section_order (ep : List Str) (kb cv : List Retrieved)
    (hist : List Turn) :
    (ep ≠ [] → kb ≠ [] → cv ≠ [] → dialogTail hist ≠ [] →
      ∃ s1 s2 s3 s4 s5 : Str,
        get_relevant_context ep kb cv hist =
          s1 ++ cvHeader ++ s2 ++ kbHeader ++ s3 ++ epHeader ++ s4 ++
            tailHeader ++ s5) ∧
    (cv = [] → cvHeader ∉ contextParts ep kb cv hist) ∧
    (kb = [] → kbHeader ∉ contextParts ep kb cv hist) ∧
    (ep = [] → epHeader ∉ contextParts ep kb cv hist) ∧
    (dialogTail hist = [] → tailHeader ∉ contextParts ep kb cv hist) := by
  refine ⟨?_, ?_, ?_, ?_, ?_⟩
  · intro hep hkb hcv htl
    have e1 := cvSection_of_ne hcv
    have e2 := kbSection_of_ne hkb
    have e3 := epSection_of_ne hep
    have e4 := tailSection_of_ne htl
    have hparts : contextParts ep kb cv hist ≠ [] := by
      rw [contextParts, e1]
      simp
    have hsplit :
        List.intercalate (S "\n") (contextParts ep kb cv hist) =
          List.intercalate (S "\n") (cvSection cv) ++ S "\n" ++
          (List.intercalate (S "\n") (kbSection kb) ++ S "\n" ++
            (List.intercalate (S "\n") (epSection ep) ++ S "\n" ++
              List.intercalate (S "\n") (tailSection (dialogTail hist)))) := by
      rw [contextParts, List.append_assoc, List.append_assoc]
      rw [intercalate_append_split _ _ _ (by rw [e1]; simp)
        (by rw [e2]; simp)]
      rw [intercalate_append_split _ _ _ (by rw [e2]; simp)
        (by rw [e3]; simp)]
      rw [intercalate_append_split _ _ _ (by rw [e3]; simp)
        (by rw [e4]; simp)]
    obtain ⟨r1, hr1⟩ := intercalate_head (S "\n") cvHeader
      (cv.map (fun x => S "• " ++ pyStrip x.text))
    obtain ⟨r2, hr2⟩ := intercalate_head (S "\n") kbHeader
      ((kb.take 5).map (fun x => S "• " ++ (pyStrip x.text).take 300))
    obtain ⟨r3, hr3⟩ := intercalate_head (S "\n") epHeader
      (ep.map (fun x => S "• " ++ pyStrip x))
    obtain ⟨r4, hr4⟩ := intercalate_head (S "\n") tailHeader (dialogTail hist)
    rw [← e1] at hr1
    rw [← e2] at hr2
    rw [← e3] at hr3
    rw [← e4] at hr4
    refine ⟨[], r1 ++ S "\n", r2 ++ S "\n", r3 ++ S "\n", r4, ?_⟩
    rw [get_relevant_context_of_ne ep kb cv hist hparts]
    rw [hsplit, hr1, hr2, hr3, hr4]
    simp [List.append_assoc]
  · intro hcv hmem
    rw [contextParts, hcv] at hmem
    simp only [cvSection, List.isEmpty_nil, if_true, List.nil_append,
      List.mem_append] at hmem
    rcases hmem with (hk | he) | ht
    · rcases mem_kbSection hk with h | ⟨y, h⟩
      · exact absurd h (by decide)
      · exact absurd h (ne_bullet_of_headCh (by decide) y)
    · rcases mem_epSection he with h | ⟨y, h⟩
      · exact absurd h (by decide)
      · exact absurd h (ne_bullet_of_headCh (by decide) y)
    · rcases mem_tailSection_dialog ht with h | ⟨y, h⟩
      · exact absurd h (by decide)
      · exact absurd h (ne_user_of_headCh (by decide) y)
  · intro hkb hmem
    rw [contextParts, hkb] at hmem
    simp only [kbSection, List.isEmpty_nil, if_true, List.nil_append,
      List.append_nil, List.mem_append] at hmem
    rcases hmem with (hc | he) | ht
    · rcases mem_cvSection hc with h | ⟨y, h⟩
      · exact absurd h (by decide)
      · exact absurd h (ne_bullet_of_headCh (by decide) y)
    · rcases mem_epSection he with h | ⟨y, h⟩
      · exact absurd h (by decide)
      · exact absurd h (ne_bullet_of_headCh (by decide) y)
    · rcases mem_tailSection_dialog ht with h | ⟨y, h⟩
      · exact absurd h (by decide)
      · exact absurd h (ne_user_of_headCh (by decide) y)
  · intro hep hmem
    rw [contextParts, hep] at hmem
    simp only [epSection, List.isEmpty_nil, if_true, List.nil_append,
      List.append_nil, List.mem_append] at hmem
    rcases hmem with (hc | hk) | ht
    · rcases mem_cvSection hc with h | ⟨y, h⟩
      · exact absurd h (by decide)
      · exact absurd h (ne_bullet_of_headCh (by decide) y)
    · rcases mem_kbSection hk with h | ⟨y, h⟩
      · exact absurd h (by decide)
      · exact absurd h (ne_bullet_of_headCh (by decide) y)
    · rcases mem_tailSection_dialog ht with h | ⟨y, h⟩
      · exact absurd h (by decide)
      · exact absurd h (ne_user_of_headCh (by decide) y)
  · intro htl hmem
    rw [contextParts, htl] at hmem
    simp only [tailSection, List.isEmpty_nil, if_true, List.append_nil,
      List.mem_append] at hmem
    rcases hmem with (hc | hk) | he
    · rcases mem_cvSection hc with h | ⟨y, h⟩
      · exact absurd h (by decide)
      · exact absurd h (ne_bullet_of_headCh (by decide) y)
    · rcases mem_kbSection hk with h | ⟨y, h⟩
      · exact absurd h (by decide)
      · exact absurd h (ne_bullet_of_headCh (by decide) y)
    · rcases mem_epSection he with h | ⟨y, h⟩
      · exact absurd h (by decide)
      · exact absurd h (ne_bullet_of_headCh (by decide) y)

/-! ### C9 -/

/-- C9: every CV hit's stripped text appears in the assembled context in full
(prefixed by its bullet, untruncated), every rendered KB hit contributes its
stripped text cut to 300 characters — and the cut is real: a 400-character KB
document's full text does not appear in the context assembled from it. -/
theorem C9_kb_truncated_cv_verbatim (ep : List Str) (kb cv : List Retrieved)
    (hist : List Turn) :
    (∀ x ∈ cv, ∃ s t : Str,
        get_relevant_context ep kb cv hist =
          s ++ (S "• " ++ pyStrip x.text) ++ t) ∧
    (∀ x ∈ kb.take 5, ∃ s t : Str,
        get_relevant_context ep kb cv hist =
          s ++ (S "• " ++ (pyStrip x.text).take 300) ++ t) ∧
    ¬ ∃ s t : Str,
        get_relevant_context [] [{ text := List.replicate 400 'b', score := 1 }] [] [] =
          s ++ List.replicate 400 'b' ++ t := by
  refine ⟨?_, ?_, ?_⟩
  · intro x hx
    have hcv : cv ≠ [] := by rintro rfl; cases hx
    have hsec : S "• " ++ pyStrip x.text ∈ cvSection cv := by
      rw [cvSection_of_ne hcv]
      exact List.mem_cons_of_mem _ (List.mem_map_of_mem _ hx)
    have hmem : S "• " ++ pyStrip x.text ∈ contextParts ep kb cv hist := by
      rw [contextParts]
      exact List.mem_append_left _ (List.mem_append_left _
        (List.mem_append_left _ hsec))
    rw [get_relevant_context_of_ne ep kb cv hist (List.ne_nil_of_mem hmem)]
    exact intercalate_mem_split _ _ _ hmem
  · intro x hx
    have hkb : kb ≠ [] := by rintro rfl; cases hx
    have hsec : S "• " ++ (pyStrip x.text).take 300 ∈ kbSection kb := by
      rw [kbSection_of_ne hkb]
      exact List.mem_cons_of_mem _ (List.mem_map_of_mem _ hx)
    have hmem : S "• " ++ (pyStrip x.text).take 300 ∈ contextParts ep kb cv hist := by
      rw [contextParts]
      exact List.mem_append_left _ (List.mem_append_left _
        (List.mem_append_right _ hsec))
    rw [get_relevant_context_of_ne ep kb cv hist (List.ne_nil_of_mem hmem)]
    exact intercalate_mem_split _ _ _ hmem
  · rintro ⟨s, t, hEq⟩
    have hlen :
        (get_relevant_context [] [{ text := List.replicate 400 'b', score := 1 }]
          [] []).length = 336 := by decide
    rw [hEq] at hlen
    simp only [List.length_append, List.length_replicate] at hlen
    omega

/-! ### C3 -/

/-- C3: CV indexing is idempotent — on a collection that already holds a
fragment it is the identity, and a second run after indexing an initially
empty store changes neither the stored fragments nor their count. -/
theorem C3_cv_indexing_idempotent :
    (∀ col : Collection, 1 ≤ col.count → _index_cv_thoroughly col = col) ∧
    _index_cv_thoroughly (_index_cv_thoroughly []) = _index_cv_thoroughly [] ∧
    (_index_cv_thoroughly (_index_cv_thoroughly [])).count =
      (_index_cv_thoroughly []).count := by
  have hguard : ∀ col : Collection, 1 ≤ col.count → _index_cv_thoroughly col = col := by
    intro col h
    rw [_index_cv_thoroughly, if_pos]
    exact h
  have h1 : 1 ≤ (_index_cv_thoroughly ([] : Collection)).count := by decide
  have h2 := hguard _ h1
  exact ⟨hguard, h2, by rw [h2]⟩

/-- Witness for C3's guard at a concrete one-fragment collection. -/
theorem C3_cv_indexing_idempotent_witness :
    _index_cv_thoroughly [(S "doc", S "id")] = [(S "doc", S "id")] :=
  C3_cv_indexing_idempotent.1 [(S "doc", S "id")] (by decide)

/-! ### C4 -/

/-- C4: a retrieved KB result is kept iff its score `1 - dist` strictly
exceeds 0.3, and a CV result iff its score strictly exceeds 0.2; at the
boundaries, score exactly 0.2 (CV) and 0.3 (KB) are excluded while 0.21 and
0.31 are included. -/
theorem C4_score_thresholds :
    (∀ (count : Nat) (docs : List Str) (dists : List ℚ) (r : Retrieved),
        r ∈ kb_search count docs dists ↔
          count ≠ 0 ∧ ∃ p ∈ docs.zip dists,
            r = { text := p.1, score := 1 - p.2 } ∧ (3 : ℚ)/10 < 1 - p.2) ∧
    (∀ (count : Nat) (docs : List Str) (dists : List ℚ) (r : Retrieved),
        r ∈ cv_search count docs dists ↔
          count ≠ 0 ∧ ∃ p ∈ docs.zip dists,
            r = { text := p.1, score := 1 - p.2 } ∧ (2 : ℚ)/10 < 1 - p.2) ∧
    cv_search 1 [S "d"] [8/10] = [] ∧
    cv_search 1 [S "d"] [79/100] = [{ text := S "d", score := 21/100 }] ∧
    kb_search 1 [S "d"] [7/10] = [] ∧
    kb_search 1 [S "d"] [69/100] = [{ text := S "d", score := 31/100 }] := by
  refine ⟨?_, ?_, ?_, ?_, ?_, ?_⟩
  · intro count docs dists r
    constructor
    · intro hr
      rw [kb_search] at hr
      by_cases h0 : count = 0
      · rw [if_pos h0] at hr; cases hr
      · rw [if_neg h0] at hr
        obtain ⟨p, hp, rfl⟩ := List.mem_map.mp hr
        obtain ⟨hpz, hcond⟩ := List.mem_filter.mp hp
        exact ⟨h0, p, hpz, rfl, by simpa using hcond⟩
    · rintro ⟨h0, p, hpz, rfl, hcond⟩
      rw [kb_search, if_neg h0]
      exact List.mem_map.mpr ⟨p, List.mem_filter.mpr ⟨hpz, by simpa using hcond⟩, rfl⟩
  · intro count docs dists r
    constructor
    · intro hr
      rw [cv_search] at hr
      by_cases h0 : count = 0
      · rw [if_pos h0] at hr; cases hr
      · rw [if_neg h0] at hr
        obtain ⟨p, hp, rfl⟩ := List.mem_map.mp hr
        obtain ⟨hpz, hcond⟩ := List.mem_filter.mp hp
        exact ⟨h0, p, hpz, rfl, by simpa using hcond⟩
    · rintro ⟨h0, p, hpz, rfl, hcond⟩
      rw [cv_search, if_neg h0]
      exact List.mem_map.mpr ⟨p, List.mem_filter.mpr ⟨hpz, by simpa using hcond⟩, rfl⟩
  · norm_num [cv_search]
  · norm_num [cv_search]
  · norm_num [kb_search]
  · norm_num [kb_search]

/-! ### C5 -/

theorem pushTurn_eq_drop (hist : List Turn) (m r : Str) :
    pushTurn hist m r =
      (hist ++ [({ q := m, a := r } : Turn)]).drop
        ((hist ++ [({ q := m, a := r } : Turn)]).length - 15) := by
  rw [pushTurn]
  by_cases h : (hist ++ [({ q := m, a := r } : Turn)]).length > 15
  · rw [if_pos h]; rfl
  · rw [if_neg h]
    have h0 : (hist ++ [({ q := m, a := r } : Turn)]).length - 15 = 0 := by omega
    rw [h0, List.drop_zero]

theorem pushTurn_length_le (hist : List Turn) (m r : Str) :
    (pushTurn hist m r).length ≤ 15 := by
  rw [pushTurn_eq_drop, List.length_drop]
  omega

theorem pushTurn_getLast (hist : List Turn) (m r : Str) :
    (pushTurn hist m r).getLast? = some { q := m, a := r } := by
  rw [pushTurn_eq_drop, List.drop_append_eq_append_drop]
  have h0 : (hist ++ [({ q := m, a := r } : Turn)]).length - 15 - hist.length = 0 := by
    simp only [List.length_append, List.length_cons, List.length_nil]; omega
  rw [h0, List.drop_zero, List.getLast?_concat]

theorem drop_last_append {α : Type} (l m : List α) (n : Nat) :
    ((l.drop (l.length - n)) ++ m).drop
        (((l.drop (l.length - n)) ++ m).length - n) =
      (l ++ m).drop ((l ++ m).length - n) := by
  rw [List.length_append, List.length_append, List.length_drop]
  rw [List.drop_append_eq_append_drop, List.drop_append_eq_append_drop]
  rw [List.drop_drop, List.length_drop]
  congr 1
  · congr 1
    omega
  · congr 1
    omega

theorem add_dialog_same (st : MemState) (uid m r : Str) :
    (add_conversation_memory st uid m r).dialog uid =
      pushTurn (st.dialog uid) m r := by
  simp [add_conversation_memory, Function.update_same]

theorem add_dialog_other (st : MemState) (uid u2 m r : Str) (h : u2 ≠ uid) :
    (add_conversation_memory st uid m r).dialog u2 = st.dialog u2 := by
  simp [add_conversation_memory, Function.update_noteq h]

theorem runAdds_same_user (uid : Str) (qas : List (Str × Str)) :
    ∀ st : MemState, (st.dialog uid).length ≤ 15 →
      (runAdds st (qas.map (fun p => (uid, p.1, p.2)))).dialog uid =
        (st.dialog uid ++ qas.map (fun p => ({ q := p.1, a := p.2 } : Turn))).drop
          ((st.dialog uid ++
            qas.map (fun p => ({ q := p.1, a := p.2 } : Turn))).length - 15) := by
  induction qas with
  | nil =>
    intro st h
    simp only [List.map_nil, runAdds, List.foldl_nil, List.append_nil]
    rw [show (st.dialog uid).length - 15 = 0 by omega, List.drop_zero]
  | cons p qas ih =>
    intro st h
    simp only [List.map_cons, runAdds, List.foldl_cons]
    have hlen : ((add_conversation_memory st uid p.1 p.2).dialog uid).length ≤ 15 := by
      rw [add_dialog_same]; exact pushTurn_length_le _ _ _
    have hrec := ih (add_conversation_memory st uid p.1 p.2) hlen
    simp only [runAdds] at hrec
    rw [hrec, add_dialog_same, pushTurn_eq_drop, drop_last_append]
    simp [List.append_assoc]

/-- C5: after any sequence of `add_conversation_memory` calls on a fresh
manager no user's short-term buffer exceeds 15 entries, and appending 20
turns for one user leaves exactly the last 15 of them, in order. -/
theorem C5_fifo_cap :
    (∀ (m : Bool) (ops : List (Str × Str × Str)) (uid : Str),
        ((runAdds (initialMemState m) ops).dialog uid).length ≤ 15) ∧
    (∀ (m : Bool) (uid : Str) (qas : List (Str × Str)), qas.length = 20 →
        (runAdds (initialMemState m) (qas.map (fun p => (uid, p.1, p.2)))).dialog uid =
          (qas.map (fun p => ({ q := p.1, a := p.2 } : Turn))).drop 5) := by
  constructor
  · intro m ops uid
    suffices h : ∀ (ops : List (Str × Str × Str)) (st : MemState),
        (∀ u, (st.dialog u).length ≤ 15) →
        ∀ u, ((runAdds st ops).dialog u).length ≤ 15 by
      exact h ops _ (fun u => by simp [initialMemState]) uid
    intro ops
    induction ops with
    | nil => intro st h u; simpa [runAdds] using h u
    | cons op ops ih =>
      intro st h u
      simp only [runAdds, List.foldl_cons]
      refine ih _ (fun u2 => ?_) u
      by_cases he : u2 = op.1
      · subst he; rw [add_dialog_same]; exact pushTurn_length_le _ _ _
      · rw [add_dialog_other _ _ _ _ _ he]; exact h u2
  · intro m uid qas hq
    have h := runAdds_same_user uid qas (initialMemState m)
      (by simp [initialMemState])
    rw [h, show (initialMemState m).dialog uid = [] from rfl]
    simp only [List.nil_append, List.length_map, hq]

/-- Witness for C5 at a concrete run of 20 turns: with turns whose messages
are the decimal numerals 0..19, the surviving buffer is turns 5..19. -/
theorem C5_fifo_cap_witness :
    (runAdds (initialMemState false)
        (((List.range 20).map (fun i => (natStr i, natStr i))).map
          (fun p => (S "u", p.1, p.2)))).dialog (S "u") =
      (((List.range 20).map (fun i => (natStr i, natStr i))).map
        (fun p => ({ q := p.1, a := p.2 } : Turn))).drop 5 :=
  C5_fifo_cap.2 false (S "u") ((List.range 20).map (fun i => (natStr i, natStr i)))
    (by decide)

/-! ### C6 -/

/-- C6: when the generation backend raises, `generate_response` returns the
fixed apologetic fallback; when it returns empty (or null) text, the fixed
empty-text fallback; in both cases the exchange is still recorded into the
short-term buffer — its newest entry is the user message paired with the
fallback — and into the episodic log when mem0 is present. -/
theorem C6_generation_fallback (st : MemState) (user_message user_id : Str) :
    ((generate_response st (.error ()) user_message user_id).1 =
        fallbackErrorText ∧
      ((generate_response st (.error ()) user_message user_id).2.dialog
          user_id).getLast? =
        some { q := user_message, a := fallbackErrorText } ∧
      (st.mem0Present = true →
        (generate_response st (.error ()) user_message user_id).2.mem0Log =
          st.mem0Log ++ [(user_id, user_message, fallbackErrorText)])) ∧
    (∀ t : Option Str, pyStrip (t.getD []) = [] →
      (generate_response st (.ok t) user_message user_id).1 =
        fallbackEmptyText ∧
      ((generate_response st (.ok t) user_message user_id).2.dialog
          user_id).getLast? =
        some { q := user_message, a := fallbackEmptyText } ∧
      (st.mem0Present = true →
        (generate_response st (.ok t) user_message user_id).2.mem0Log =
          st.mem0Log ++ [(user_id, user_message, fallbackEmptyText)])) := by
  constructor
  · refine ⟨rfl, ?_, ?_⟩
    · rw [show (generate_response st (.error ()) user_message user_id).2 =
          add_conversation_memory st user_id user_message fallbackErrorText from rfl]
      rw [add_dialog_same]
      exact pushTurn_getLast _ _ _
    · intro hm
      simp [generate_response, add_conversation_memory, hm]
  · intro t ht
    have htext : (generate_response st (.ok t) user_message user_id).1 =
        fallbackEmptyText := by
      simp [generate_response, ht]
    refine ⟨htext, ?_, ?_⟩
    · have h2 : (generate_response st (.ok t) user_message user_id).2 =
          add_conversation_memory st user_id user_message fallbackEmptyText := by
        simp [generate_response, ht]
      rw [h2, add_dialog_same]
      exact pushTurn_getLast _ _ _
    · intro hm
      simp [generate_response, add_conversation_memory, ht, hm]

/-- Witness for C6 at concrete inputs: a raising backend and a
whitespace-only backend response on a fresh manager. -/
theorem C6_generation_fallback_witness :
    (generate_response (initialMemState true) (.error ()) (S "привет") (S "u")).1 =
        fallbackErrorText ∧
      (generate_response (initialMemState true) (.ok (some (S "  ")))
          (S "привет") (S "u")).1 = fallbackEmptyText :=
  ⟨(C6_generation_fallback (initialMemState true) (S "привет") (S "u")).1.1,
   ((C6_generation_fallback (initialMemState true) (S "привет") (S "u")).2
      (some (S "  ")) (by decide)).1⟩

/-! ### C7 and C8: chunking -/

theorem chunkGo_nil_of_short (text : Str) (fuel : Nat) :
    ∀ start, text.length ≤ start + 50 → chunkGo text 800 200 start fuel = [] := by
  induction fuel with
  | zero => intro start _; rfl
  | succ fuel ih =>
    intro start h
    rw [chunkGo]
    by_cases hs : start < text.length
    · rw [if_pos hs]
      have hlen : ¬ ((text.drop start).take 800).length > 50 := by
        rw [List.length_take, List.length_drop]; omega
      rw [if_neg hlen]
      exact ih (start + max 100 (800 - 200)) (by omega)
    · rw [if_neg hs]

theorem chunkGo_cons (text : Str) (fuel start : Nat) (c : Str) (t : List Str)
    (h : chunkGo text 800 200 start fuel = c :: t) :
    c = (text.drop start).take 800 ∧ 50 < c.length ∧ start < text.length := by
  cases fuel with
  | zero => exact absurd h (by simp [chunkGo])
  | succ fuel =>
    rw [chunkGo] at h
    by_cases hs : start < text.length
    · rw [if_pos hs] at h
      by_cases hk : ((text.drop start).take 800).length > 50
      · rw [if_pos hk] at h
        injection h with h1 _
        exact ⟨h1.symm, h1 ▸ hk, hs⟩
      · rw [if_neg hk] at h
        have hshort : text.length ≤ start + 50 := by
          rw [List.length_take, List.length_drop] at hk; omega
        rw [chunkGo_nil_of_short text fuel _ (by omega)] at h
        exact absurd h (by simp)
    · rw [if_neg hs] at h
      exact absurd h (by simp)

theorem window_overlap (text : Str) (s : Nat)
    (h2 : 200 ≤ ((text.drop (s + 600)).take 800).length) :
    ((text.drop s).take 800).drop (((text.drop s).take 800).length - 200) =
      ((text.drop (s + 600)).take 800).take 200 := by
  have hlen2 : 200 ≤ text.length - (s + 600) := by
    rw [List.length_take, List.length_drop] at h2; omega
  have hlen1 : ((text.drop s).take 800).length = 800 := by
    rw [List.length_take, List.length_drop]; omega
  rw [hlen1, show (800 - 200 : Nat) = 600 from rfl]
  rw [List.drop_take, List.drop_drop, List.take_take]
  norm_num

theorem chunkGo_consecutive (text : Str) :
    ∀ (fuel start : Nat) (l : List Str) (c1 c2 : Str) (r : List Str),
      chunkGo text 800 200 start fuel = l ++ c1 :: c2 :: r →
      200 ≤ c2.length →
      c1.drop (c1.length - 200) = c2.take 200 := by
  intro fuel
  induction fuel with
  | zero => intro start l c1 c2 r h _; exact absurd h (by simp [chunkGo])
  | succ fuel ih =>
    intro start l c1 c2 r h h2
    rw [chunkGo] at h
    by_cases hs : start < text.length
    · rw [if_pos hs] at h
      by_cases hk : ((text.drop start).take 800).length > 50
      · rw [if_pos hk] at h
        cases l with
        | nil =>
          rw [List.nil_append] at h
          injection h with hc1 hrest
          obtain ⟨hc2, _, _⟩ :=
            chunkGo_cons text fuel (start + max 100 (800 - 200)) c2 r hrest
          rw [show (max 100 (800 - 200) : Nat) = 600 from rfl] at hc2
          rw [← hc1, hc2]
          apply window_overlap
          rw [← hc2]
          exact h2
        | cons a l2 =>
          rw [List.cons_append] at h
          injection h with _ hrest
          exact ih (start + max 100 (800 - 200)) l2 c1 c2 r hrest h2
      · rw [if_neg hk] at h
        have hshort : text.length ≤ start + 50 := by
          rw [List.length_take, List.length_drop] at hk; omega
        rw [chunkGo_nil_of_short text fuel _ (by omega)] at h
        exact absurd h (by simp)
    · rw [if_neg hs] at h
      exact absurd h (by simp)

/-- C7 (amended): for chunking with chunk size 800 and overlap 200, any two
consecutive chunks of one text's output overlap — when the later chunk is at
least 200 characters long, the last 200 characters of the earlier chunk equal
its first 200 characters. -/
theorem C7_chunk_overlap (text : Str) (l : List Str) (c1 c2 : Str)
    (r : List Str) (h : chunkWindows text 800 200 = l ++ c1 :: c2 :: r)
    (h2 : 200 ≤ c2.length) :
    c1.drop (c1.length - 200) = c2.take 200 :=
  chunkGo_consecutive text (text.length + 1) 0 l c1 c2 r h h2

/-- Witness for C7 on a 900-character text: its two chunks are the first 800
characters and the 300 characters from position 600, and the overlap equation
holds between them. -/
theorem C7_chunk_overlap_witness :
    (List.replicate 800 'a').drop ((List.replicate 800 'a').length - 200) =
      (List.replicate 300 'a').take 200 :=
  C7_chunk_overlap (List.replicate 900 'a') [] (List.replicate 800 'a')
    (List.replicate 300 'a') [] (by decide) (by decide)

/-- Counterexample to C7 as stated: a whitespace-free 700-character input
chunks into a 700-character chunk followed by a 100-character chunk, and the
last 200 characters of the first are not the first 200 characters (i.e. all
100 characters) of the second. -/
theorem C7_chunk_overlap_counterexample :
    (_chunk_texts [List.replicate 700 'a'] (S "doc") 800 200).1 =
      [List.replicate 700 'a', List.replicate 100 'a'] ∧
    (List.replicate 700 'a').drop ((List.replicate 700 'a').length - 200) ≠
      (List.replicate 100 'a').take 200 :=
  ⟨by decide, by decide⟩

theorem chunkGo_mem (text : Str) :
    ∀ (fuel start : Nat) (c : Str), c ∈ chunkGo text 800 200 start fuel →
      ∃ i, start + 600 * i < text.length ∧
        c = (text.drop (start + 600 * i)).take 800 ∧ 50 < c.length := by
  intro fuel
  induction fuel with
  | zero => intro start c h; exact absurd h (by simp [chunkGo])
  | succ fuel ih =>
    intro start c h
    rw [chunkGo] at h
    by_cases hs : start < text.length
    · rw [if_pos hs] at h
      by_cases hk : ((text.drop start).take 800).length > 50
      · rw [if_pos hk] at h
        rcases List.mem_cons.mp h with rfl | hm
        · exact ⟨0, by simpa using hs, by simp, hk⟩
        · obtain ⟨i, hi1, hi2, hi3⟩ := ih (start + max 100 (800 - 200)) c hm
          rw [show (max 100 (800 - 200) : Nat) = 600 from rfl] at hi1 hi2
          have he : start + 600 + 600 * i = start + 600 * (i + 1) := by ring
          rw [he] at hi1 hi2
          exact ⟨i + 1, hi1, hi2, hi3⟩
      · rw [if_neg hk] at h
        obtain ⟨i, hi1, hi2, hi3⟩ := ih (start + max 100 (800 - 200)) c h
        rw [show (max 100 (800 - 200) : Nat) = 600 from rfl] at hi1 hi2
        have he : start + 600 + 600 * i = start + 600 * (i + 1) := by ring
        rw [he] at hi1 hi2
        exact ⟨i + 1, hi1, hi2, hi3⟩
    · rw [if_neg hs] at h
      exact absurd h (by simp)

theorem chunkGo_mem_of_window (text : Str) :
    ∀ (fuel start i : Nat), text.length ≤ start + 100 * fuel →
      start + 600 * i < text.length →
      50 < ((text.drop (start + 600 * i)).take 800).length →
      (text.drop (start + 600 * i)).take 800 ∈ chunkGo text 800 200 start fuel := by
  intro fuel
  induction fuel with
  | zero => intro start i hf hi _; exact absurd hi (by omega)
  | succ fuel ih =>
    intro start i hf hi hk
    have hs : start < text.length := by omega
    rw [chunkGo, if_pos hs]
    cases i with
    | zero =>
      rw [Nat.mul_zero, Nat.add_zero] at hk hi ⊢
      rw [if_pos hk]
      exact List.mem_cons_self _ _
    | succ j =>
      have hstep : start + 600 * (j + 1) = start + max 100 (800 - 200) + 600 * j := by
        rw [show (max 100 (800 - 200) : Nat) = 600 from rfl]; ring
      rw [hstep] at hi hk ⊢
      have hm := ih (start + max 100 (800 - 200)) j
        (by rw [show (max 100 (800 - 200) : Nat) = 600 from rfl]; omega) hi hk
      by_cases hk0 : ((text.drop start).take 800).length > 50
      · rw [if_pos hk0]
        exact List.mem_cons_of_mem _ hm
      · rw [if_neg hk0]
        exact hm

/-- C8 (amended): a windowed fragment appears in the chunk output exactly
when it is longer than 50 characters (fragments of 50 or fewer characters
are discarded); and an input whose whitespace-normalized length is at most
50 produces no chunks at all. -/
theorem C8_min_chunk_size :
    (∀ (text c : Str),
        c ∈ chunkWindows text 800 200 ↔
          ∃ i, 600 * i < text.length ∧
            c = (text.drop (600 * i)).take 800 ∧ 50 < c.length) ∧
    (∀ (raw pre : Str), (normalizeWs raw).length ≤ 50 →
        _chunk_texts [raw] pre 800 200 = ([], [])) := by
  constructor
  · intro text c
    constructor
    · intro h
      obtain ⟨i, h1, h2, h3⟩ := chunkGo_mem text (text.length + 1) 0 c h
      rw [Nat.zero_add] at h1 h2
      exact ⟨i, h1, h2, h3⟩
    · rintro ⟨i, h1, h2, h3⟩
      rw [h2]
      rw [h2] at h3
      have := chunkGo_mem_of_window text (text.length + 1) 0 i (by omega)
        (by omega) (by rw [Nat.zero_add]; exact h3)
      rw [Nat.zero_add] at this
      exact this
  · intro raw pre h
    rw [_chunk_texts]
    simp only [List.foldl_cons, List.foldl_nil]
    by_cases hn : (normalizeWs raw).isEmpty
    · rw [if_pos hn]
    · rw [if_neg hn]
      have hw : chunkWindows (normalizeWs raw) 800 200 = [] := by
        rw [chunkWindows]
        exact chunkGo_nil_of_short _ _ 0 (by omega)
      rw [hw]
      simp

/-- Witness for C8's empty-output clause at a concrete 10-character input. -/
theorem C8_min_chunk_size_witness :
    _chunk_texts [List.replicate 10 'a'] (S "doc") 800 200 = ([], []) :=
  C8_min_chunk_size.2 (List.replicate 10 'a') (S "doc") (by decide)

/-- Counterexample to C8 as stated ("kept iff at least 50 characters"): for a
whitespace-free 50-character input the single windowed fragment is the whole
input — 50 characters, so "at least 50" — yet the chunk output is empty. -/
theorem C8_min_chunk_size_counterexample :
    normalizeWs (List.replicate 50 'a') = List.replicate 50 'a' ∧
    50 ≤ (((List.replicate 50 'a').drop (600 * 0)).take 800).length ∧
    ((List.replicate 50 'a').drop (600 * 0)).take 800 ∉
      chunkWindows (List.replicate 50 'a') 800 200 ∧
    (_chunk_texts [List.replicate 50 'a'] (S "doc") 800 200).1 = [] :=
  ⟨by decide, by decide, by decide, by decide⟩

/-! ### C10 -/

theorem runSets_never_set (uid : Nat) (ops : List (Nat × PrefsUpdate)) :
    ∀ db : PrefsDb,
      ((∀ op ∈ ops, op.1 = uid → op.2.lang = none) →
        (prefs_get (runSets db ops) uid).lang = (prefs_get db uid).lang) ∧
      ((∀ op ∈ ops, op.1 = uid → op.2.voice = none) →
        (prefs_get (runSets db ops) uid).voice = (prefs_get db uid).voice) ∧
      ((∀ op ∈ ops, op.1 = uid → op.2.style = none) →
        (prefs_get (runSets db ops) uid).style = (prefs_get db uid).style) := by
  induction ops with
  | nil => intro db; exact ⟨fun _ => rfl, fun _ => rfl, fun _ => rfl⟩
  | cons op ops ih =>
    intro db
    have hih := ih ((prefs_set db op.1 op.2).2)
    have hstep : runSets db (op :: ops) = runSets ((prefs_set db op.1 op.2).2) ops := rfl
    refine ⟨fun hall => ?_, fun hall => ?_, fun hall => ?_⟩
    · have h1 := hall op (List.mem_cons_self _ _)
      have hrest : ∀ o ∈ ops, o.1 = uid → o.2.lang = none :=
        fun o ho => hall o (List.mem_cons_of_mem _ ho)
      rw [hstep, hih.1 hrest]
      by_cases he : op.1 = uid
      · subst he
        simp [prefs_get, prefs_set, Function.update_same, mergeDefaults, toStored,
          applyUpdate, h1 rfl]
      · simp [prefs_get, prefs_set, Function.update_noteq (Ne.symm he)]
    · have h1 := hall op (List.mem_cons_self _ _)
      have hrest : ∀ o ∈ ops, o.1 = uid → o.2.voice = none :=
        fun o ho => hall o (List.mem_cons_of_mem _ ho)
      rw [hstep, hih.2.1 hrest]
      by_cases he : op.1 = uid
      · subst he
        simp [prefs_get, prefs_set, Function.update_same, mergeDefaults, toStored,
          applyUpdate, h1 rfl]
      · simp [prefs_get, prefs_set, Function.update_noteq (Ne.symm he)]
    · have h1 := hall op (List.mem_cons_self _ _)
      have hrest : ∀ o ∈ ops, o.1 = uid → o.2.style = none :=
        fun o ho => hall o (List.mem_cons_of_mem _ ho)
      rw [hstep, hih.2.2 hrest]
      by_cases he : op.1 = uid
      · subst he
        simp [prefs_get, prefs_set, Function.update_same, mergeDefaults, toStored,
          applyUpdate, h1 rfl]
      · simp [prefs_get, prefs_set, Function.update_noteq (Ne.symm he)]

/-- C10: `get` and `set` both produce full three-field records; on a fresh
store `get` yields the defaults, a field never set by any `set` call stays at
its default, `get` after a `set` returns exactly what that `set` returned,
and a field passed as `None` to `set` keeps its previous stored value. -/
theorem C10_prefs_defaults_and_none (db : PrefsDb) (uid : Nat)
    (kw : PrefsUpdate) :
    prefs_get initialPrefsDb uid = DEFAULT ∧
    prefs_get (prefs_set db uid kw).2 uid = (prefs_set db uid kw).1 ∧
    (kw.lang = none →
      (prefs_set db uid kw).1.lang = (prefs_get db uid).lang) ∧
    (kw.voice = none →
      (prefs_set db uid kw).1.voice = (prefs_get db uid).voice) ∧
    (kw.style = none →
      (prefs_set db uid kw).1.style = (prefs_get db uid).style) ∧
    (∀ ops : List (Nat × PrefsUpdate),
      ((∀ op ∈ ops, op.1 = uid → op.2.lang = none) →
        (prefs_get (runSets initialPrefsDb ops) uid).lang = DEFAULT.lang) ∧
      ((∀ op ∈ ops, op.1 = uid → op.2.voice = none) →
        (prefs_get (runSets initialPrefsDb ops) uid).voice = DEFAULT.voice) ∧
      ((∀ op ∈ ops, op.1 = uid → op.2.style = none) →
        (prefs_get (runSets initialPrefsDb ops) uid).style = DEFAULT.style)) := by
  refine ⟨rfl, ?_, fun h => ?_, fun h => ?_, fun h => ?_, fun ops => ?_⟩
  · simp [prefs_get, prefs_set, Function.update_same, mergeDefaults, toStored]
  · simp [prefs_set, applyUpdate, h]
  · simp [prefs_set, applyUpdate, h]
  · simp [prefs_set, applyUpdate, h]
  · obtain ⟨hl, hv, hs⟩ := runSets_never_set uid ops initialPrefsDb
    exact ⟨fun hall => hl hall, fun hall => hv hall, fun hall => hs hall⟩

/-- Witness for C10's None-preservation at a concrete store and update. -/
theorem C10_prefs_defaults_and_none_witness :
    (prefs_set initialPrefsDb 7
        { lang := none, voice := some (S "en-GB-x"), style := none }).1.lang =
      (prefs_get initialPrefsDb 7).lang :=
  (C10_prefs_defaults_and_none initialPrefsDb 7
      { lang := none, voice := some (S "en-GB-x"), style := none }).2.2.1 rfl

/-- Witness for C1: with all four sources empty the sentinel is returned. -/
theorem C1_no_context_sentinel_witness :
    get_relevant_context [] [] [] [] = noContext :=
  (C1_no_context_sentinel [] [] [] []).2.mpr ⟨rfl, rfl, rfl, rfl⟩

/-- Witness for C2 at one concrete non-empty input per source. -/
theorem C2_section_order_witness :
    ∃ s1 s2 s3 s4 s5 : Str,
      get_relevant_context [S "факт"] [{ text := S "док", score := 1 }]
          [{ text := S "резюме", score := 1 }]
          [{ q := S "привет", a := S "ответ" }] =
        s1 ++ cvHeader ++ s2 ++ kbHeader ++ s3 ++ epHeader ++ s4 ++
          tailHeader ++ s5 :=
  (C2_section_order [S "факт"] [{ text := S "док", score := 1 }]
      [{ text := S "резюме", score := 1 }]
      [{ q := S "привет", a := S "ответ" }]).1
    (by decide) (by decide) (by decide) (by decide)

/-- Witness for C4's excluded boundary: CV score exactly 0.2 is filtered out. -/
theorem C4_score_thresholds_witness :
    cv_search 1 [S "d"] [8/10] = [] :=
  C4_score_thresholds.2.2.1

/-- Witness for C9 at a concrete CV hit: its stripped text appears verbatim. -/
theorem C9_kb_truncated_cv_verbatim_witness :
    ∃ s t : Str,
      get_relevant_context [] [] [{ text := S "резюме", score := 1 }] [] =
        s ++ (S "• " ++ pyStrip (S "резюме")) ++ t :=
  (C9_kb_truncated_cv_verbatim [] [] [{ text := S "резюме", score := 1 }] []).1
    { text := S "резюме", score := 1 } (List.mem_singleton.mpr rfl)

end FirdavsBot
